import Mathlib

/-!
A shallow embedding of `exponet/hamiltonian.py`: evaluation of the local
energy of a molecular Hamiltonian on an electron configuration, with its
two kinetic-energy accumulation strategies, the ground/excited-state
dispatch, the excited-state matrix reduction, the Coulomb potential terms
and the pseudopotential-charge substitution logic.

Machine floats are modelled by exact rationals.  The external
collaborators (the wavefunction ansatz and its automatic derivatives, the
feature construction of `exponet.networks`, the pseudopotential module,
and the `jnp` numeric primitives `exp` and vector norm) are abstract
parameters bundled in `Collaborators`; every theorem quantifies over them.
-/

namespace Exponet

/-- Geometric features of a configuration, as produced by the external
collaborator `networks.construct_input_features` (not part of this core):
electron-atom displacements `ae`, electron-atom distances `r_ae` and
electron-electron distances `r_ee` (the `[..., 0]` slice of the source's
`r_ee` tensor), with the electron and atom counts as explicit fields. -/
structure InputFeatures where
  ne : ℕ
  na : ℕ
  ae : Fin ne → Fin na → Fin 3 → ℚ
  r_ae : Fin ne → Fin na → ℚ
  r_ee : Fin ne → Fin ne → ℚ

/-- One MCMC configuration: flattened electron position coordinates,
spin labels, the (abstract) atom geometry and the nuclear charges. -/
structure FermiNetData (AtomsT : Type) where
  positions : List ℚ
  spins : List ℚ
  atoms : AtomsT
  charges : List ℚ

/-- The scalar outputs of the automatic differentiation of the ground-state
wavefunction, abstracted: the diagonal Hessian entries of the real
(`hdiag_real`, lines 112-113) and complex (`hdiag_complex`, lines 103-111)
paths, the squared-gradient term `jnp.sum(primal ** 2)` (line 122), the
complex corrections of lines 123-125, and the forward-laplacian outputs of
the `folx` path (lines 139-142). -/
structure GroundOracle (P D : Type) where
  nCoords : D → ℕ
  hdiag_real : P → D → ℕ → ℚ
  hdiag_complex : P → D → ℕ → ℚ
  grad_log_sq : P → D → ℚ
  complex_corr : P → D → ℚ
  folx_lapl : P → D → ℚ
  folx_jac_sq : P → D → ℚ

/-- The triple returned by the external `pp.make_pp_potential`: effective
charges, the local pseudopotential term (a function of the geometric
features; the source passes `r_ae`) and the non-local term. -/
structure PPPotential (P KeyT AtomsT : Type) where
  effective : List ℚ
  pp_local : InputFeatures → ℚ
  pp_nonlocal : KeyT → P → FermiNetData AtomsT → InputFeatures → ℚ

/-- All external collaborators of the hamiltonian module: feature
construction, atom geometry (`natoms`, pairwise atom distances `r_aa`
standing for the `jnp.linalg.norm` of line 244), the per-state sign,
log-magnitude and kinetic values of the excited-state wavefunction batch
(`sign`, `logm`, `lapl` for the default method, `folx_lapl` for the
forward-laplacian method), the ground-state derivative oracle, the
exponential `jnp.exp` and the pseudopotential factory. -/
structure Collaborators (P KeyT AtomsT : Type) where
  feats : List ℚ → AtomsT → InputFeatures
  natoms : AtomsT → ℕ
  r_aa : AtomsT → ℕ → ℕ → ℚ
  sign : P → List ℚ → List ℚ → AtomsT → List ℚ → ℕ → ℚ
  logm : P → List ℚ → List ℚ → AtomsT → List ℚ → ℕ → ℚ
  lapl : P → List ℚ → List ℚ → AtomsT → List ℚ → ℕ → ℚ
  folx_lapl : P → List ℚ → List ℚ → AtomsT → List ℚ → ℕ → ℚ
  ground : GroundOracle P (FermiNetData AtomsT)
  qexp : ℚ → ℚ
  makePP : List ℚ → List String → ℕ → String → Bool → PPPotential P KeyT AtomsT

/-- Errors raised while the local-energy function is being constructed
(`NotImplementedError` in the source). -/
inductive ConfigError where
  | complexExcited : ConfigError
  | folxComplex : ConfigError
  | unknownMethod : String → ConfigError
deriving DecidableEq

/-- Errors raised when the constructed local-energy function is evaluated:
the `ValueError` of a failing `jnp.reshape` and the deferred
`NotImplementedError` of an unknown excited-state laplacian method. -/
inductive EvalErr where
  | reshapeError : EvalErr
  | unknownExcitedMethod : String → EvalErr
deriving DecidableEq

/-- The optional excited-state energy matrix, tagged with its side. -/
def EMat : Type := (n : ℕ) × Matrix (Fin n) (Fin n) ℚ

/-- Row `j` of `jnp.reshape(xs, [s, -1])`. -/
def npRows (s : ℕ) (xs : List ℚ) : ℕ → List ℚ :=
  fun j => (xs.drop (j * (xs.length / s))).take (xs.length / s)

/-- The shape check of `jnp.reshape(xs, [s, -1])`: NumPy raises unless the
size is divisible by `s` (and `s` is nonzero, the `-1` being otherwise
underdetermined). -/
def npReshapeCheck (s : ℕ) (xs : List ℚ) : Except EvalErr Unit :=
  if s ≠ 0 ∧ s ∣ xs.length then Except.ok () else Except.error EvalErr.reshapeError

/-- `lax.scan` over `length` steps with no per-step input: threads the
carry and collects the stacked outputs. -/
def laxScan {C Y : Type} (f : C → Unit → C × Y) (init : C) (length : ℕ) : C × List Y :=
  (List.range length).foldl
    (fun acc _ => ((f acc.1 ()).1, acc.2 ++ [(f acc.1 ()).2])) (init, ([] : List Y))

/-- `lax.fori_loop lo hi body init`. -/
def foriLoop (lo hi : ℕ) (body : ℕ → ℚ → ℚ) (init : ℚ) : ℚ :=
  (List.range' lo (hi - lo)).foldl (fun val i => body i val) init

/-- The `_lapl_over_f` closure of `local_kinetic_energy` (default
laplacian method, lines 94-126): accumulate the Hessian diagonal either by
`lax.scan` or by `lax.fori_loop`, subtract half the squared gradient, and
add the complex corrections when the output is complex. -/
def lapl_over_f_default {P D : Type} (o : GroundOracle P D)
    (use_scan complex_output : Bool) (params : P) (data : D) : ℚ :=
  let n := o.nCoords data
  let hessian_diagonal : ℕ → ℚ :=
    if complex_output then o.hdiag_complex params data else o.hdiag_real params data
  let base : ℚ :=
    if use_scan then
      -(1/2) * ((laxScan (fun i _ => (i + 1, hessian_diagonal i)) 0 n).2).sum
    else
      -(1/2) * foriLoop 0 n (fun i val => val + hessian_diagonal i) 0
  let result := base - (1/2) * o.grad_log_sq params data
  if complex_output then result + o.complex_corr params data else result

/-- `local_kinetic_energy` (lines 67-147): construction-time dispatch on
the laplacian method.  The `folx` method rejects complex output and the
unknown-method branch raises, both at construction. -/
def local_kinetic_energy {P D : Type} (o : GroundOracle P D)
    (use_scan complex_output : Bool) (laplacian_method : String) :
    Except ConfigError (P → D → ℚ) :=
  if laplacian_method = "default" then
    Except.ok (lapl_over_f_default o use_scan complex_output)
  else if laplacian_method = "folx" then
    if complex_output then Except.error ConfigError.folxComplex
    else Except.ok (fun params data => -(o.folx_lapl params data + o.folx_jac_sq params data) / 2)
  else Except.error (ConfigError.unknownMethod laplacian_method)

/-- `potential_electron_electron` (lines 214-223): sum of `1/distance`
over the strict upper triangle of the electron-electron distance tensor. -/
def potential_electron_electron (n : ℕ) (r_ee : Fin n → Fin n → ℚ) : ℚ :=
  ∑ p ∈ Finset.filter (fun p : Fin n × Fin n => p.1 < p.2) Finset.univ, 1 / r_ee p.1 p.2

/-- `potential_electron_nuclear` (lines 226-234):
`-jnp.sum(charges / r_ae[..., 0])`. -/
def potential_electron_nuclear (F : InputFeatures) (charges : List ℚ) : ℚ :=
  -∑ i : Fin F.ne, ∑ j : Fin F.na, charges.getD j.val 0 / F.r_ae i j

/-- `potential_nuclear_nuclear` (lines 237-246): strict-upper-triangle sum
of `charge_i * charge_j / r_aa i j`, the pairwise atom distances `r_aa`
being supplied by the abstract norm collaborator. -/
def potential_nuclear_nuclear {AtomsT : Type} (natoms : AtomsT → ℕ)
    (r_aa : AtomsT → ℕ → ℕ → ℚ) (charges : List ℚ) (atoms : AtomsT) : ℚ :=
  ∑ p ∈ Finset.filter (fun p : ℕ × ℕ => p.1 < p.2)
      ((Finset.range (natoms atoms)) ×ˢ (Finset.range (natoms atoms))),
    charges.getD p.1 0 * charges.getD p.2 0 / r_aa atoms p.1 p.2

/-- `potential_energy` (lines 249-264): the sum of the three Coulomb
terms. -/
def potential_energy {AtomsT : Type} (natoms : AtomsT → ℕ)
    (r_aa : AtomsT → ℕ → ℕ → ℚ) (F : InputFeatures) (atoms : AtomsT)
    (charges : List ℚ) : ℚ :=
  potential_electron_electron F.ne F.r_ee
    + potential_electron_nuclear F charges
    + potential_nuclear_nuclear natoms r_aa charges atoms

/-- `jnp.linalg.solve A B`: over a field this agrees with `A⁻¹ * B`
(both give `0` when `A` is singular). -/
def npSolve {n : ℕ} (A B : Matrix (Fin n) (Fin n) ℚ) : Matrix (Fin n) (Fin n) ℚ :=
  (A.det)⁻¹ • (A.adjugate * B)

/-- The entries of a matrix, row-major. -/
def matEntries {s : ℕ} (M : Matrix (Fin s) (Fin s) ℚ) : List ℚ :=
  (List.finRange s).flatMap fun j => (List.finRange s).map fun i => M j i

/-- `jnp.max` over a (nonempty) matrix of log magnitudes. -/
def matMax {s : ℕ} (M : Matrix (Fin s) (Fin s) ℚ) : ℚ :=
  (matEntries M).foldr max ((matEntries M).headD 0)

variable {P KeyT AtomsT : Type}

/-- The matrix assembly of `excited_kinetic_energy_matrix` (lines
170-209): row `j` of each matrix evaluates state `i` at electron set `j`.
The `folx` branch passes only the first row of spins to the network (the
flagged caveat of line 195); the maximal log magnitude is subtracted
before exponentiating (lines 206-208), `psi_mat = sign * exp(log - max)`
and `kpsi_mat = lapl * psi_mat`. -/
def excitedMats (C : Collaborators P KeyT AtomsT) (s : ℕ) (laplacian_method : String)
    (params : P) (d : FermiNetData AtomsT) :
    Matrix (Fin s) (Fin s) ℚ × Matrix (Fin s) (Fin s) ℚ :=
  let prow := npRows s d.positions
  let srow := npRows s d.spins
  let sign_mat : Matrix (Fin s) (Fin s) ℚ :=
    if laplacian_method = "folx" then
      Matrix.of fun j i => C.sign params (prow j.val) (srow 0) d.atoms d.charges i.val
    else
      Matrix.of fun j i => C.sign params (prow j.val) (srow j.val) d.atoms d.charges i.val
  let log_mat : Matrix (Fin s) (Fin s) ℚ :=
    if laplacian_method = "folx" then
      Matrix.of fun j i => C.logm params (prow j.val) (srow 0) d.atoms d.charges i.val
    else
      Matrix.of fun j i => C.logm params (prow j.val) (srow j.val) d.atoms d.charges i.val
  let lapl : Matrix (Fin s) (Fin s) ℚ :=
    if laplacian_method = "folx" then
      Matrix.of fun j i => C.folx_lapl params (prow j.val) (srow 0) d.atoms d.charges i.val
    else
      Matrix.of fun j i => C.lapl params (prow j.val) (srow j.val) d.atoms d.charges i.val
  let m := matMax log_mat
  let psi_mat : Matrix (Fin s) (Fin s) ℚ :=
    Matrix.of fun j i => sign_mat j i * C.qexp (log_mat j i - m)
  let kpsi_mat : Matrix (Fin s) (Fin s) ℚ :=
    Matrix.of fun j i => lapl j i * psi_mat j i
  (psi_mat, kpsi_mat)

/-- The `_lapl_over_f` closure returned by `excited_kinetic_energy_matrix`
(lines 183-209): reshape positions and spins into per-state rows, then
dispatch on the laplacian method — the unknown-method branch raises here,
at evaluation time, not at construction. -/
def excited_kinetic_energy_matrix (C : Collaborators P KeyT AtomsT) (s : ℕ)
    (laplacian_method : String) (params : P) (d : FermiNetData AtomsT) :
    Except EvalErr (Matrix (Fin s) (Fin s) ℚ × Matrix (Fin s) (Fin s) ℚ) := do
  _ ← npReshapeCheck s d.positions
  _ ← npReshapeCheck s d.spins
  if laplacian_method = "default" ∨ laplacian_method = "folx" then
    pure (excitedMats C s laplacian_method params d)
  else
    Except.error (EvalErr.unknownExcitedMethod laplacian_method)

/-- The per-state potential column of `_e_l` (lines 344-365): the Coulomb
potential of each state's electron block, plus the local and non-local
pseudopotential terms when pseudopotentials are active. -/
def potSpectrum (C : Collaborators P KeyT AtomsT) (s : ℕ) (effective_charges : List ℚ)
    (ploc : InputFeatures → ℚ)
    (pnonloc : KeyT → P → FermiNetData AtomsT → InputFeatures → ℚ)
    (use_pp : Bool) (params : P) (key : KeyT) (d : FermiNetData AtomsT) : ℕ → ℚ :=
  fun j =>
    let row := npRows s d.positions j
    let F := C.feats row d.atoms
    let base := potential_energy C.natoms C.r_aa F d.atoms effective_charges
    if use_pp then
      base + ploc F
        + pnonloc key params ⟨row, npRows s d.spins j, d.atoms, d.charges⟩ F
    else base

/-- The `psi_mat` of the excited kinetic evaluation. -/
def excitedPsi (C : Collaborators P KeyT AtomsT) (s : ℕ) (laplacian_method : String)
    (params : P) (d : FermiNetData AtomsT) : Matrix (Fin s) (Fin s) ℚ :=
  (excitedMats C s laplacian_method params d).1

/-- The `kpsi_mat` of the excited kinetic evaluation. -/
def excitedKpsi (C : Collaborators P KeyT AtomsT) (s : ℕ) (laplacian_method : String)
    (params : P) (d : FermiNetData AtomsT) : Matrix (Fin s) (Fin s) ℚ :=
  (excitedMats C s laplacian_method params d).2

/-- `hpsi_mat = kin_mat + psi_mat * pot_spectrum` (line 371), the potential
column broadcasting over the rows. -/
def excitedHpsiMat (C : Collaborators P KeyT AtomsT) (s : ℕ) (laplacian_method : String)
    (effective_charges : List ℚ) (ploc : InputFeatures → ℚ)
    (pnonloc : KeyT → P → FermiNetData AtomsT → InputFeatures → ℚ)
    (use_pp : Bool) (params : P) (key : KeyT) (d : FermiNetData AtomsT) :
    Matrix (Fin s) (Fin s) ℚ :=
  excitedKpsi C s laplacian_method params d
    + Matrix.of fun j i =>
        excitedPsi C s laplacian_method params d j i
          * potSpectrum C s effective_charges ploc pnonloc use_pp params key d j.val

/-- `energy_mat = jnp.linalg.solve(psi_mat, hpsi_mat)` (line 372). -/
def excitedEnergyMat (C : Collaborators P KeyT AtomsT) (s : ℕ) (laplacian_method : String)
    (effective_charges : List ℚ) (ploc : InputFeatures → ℚ)
    (pnonloc : KeyT → P → FermiNetData AtomsT → InputFeatures → ℚ)
    (use_pp : Bool) (params : P) (key : KeyT) (d : FermiNetData AtomsT) :
    Matrix (Fin s) (Fin s) ℚ :=
  npSolve (excitedPsi C s laplacian_method params d)
    (excitedHpsiMat C s laplacian_method effective_charges ploc pnonloc use_pp params key d)

/-- The ground-state branch of `_e_l` (lines 374-383): features, Coulomb
potential with the effective charges, pseudopotential terms, plus the
kinetic estimate; no matrix is returned. -/
def e_l_ground (C : Collaborators P KeyT AtomsT) (effective_charges : List ℚ)
    (ploc : InputFeatures → ℚ)
    (pnonloc : KeyT → P → FermiNetData AtomsT → InputFeatures → ℚ)
    (kin : P → FermiNetData AtomsT → ℚ) :
    P → KeyT → FermiNetData AtomsT → Except EvalErr (ℚ × Option EMat) :=
  fun params key data =>
    let F := C.feats data.positions data.atoms
    let potential := potential_energy C.natoms C.r_aa F data.atoms effective_charges
      + ploc F + pnonloc key params data F
    Except.ok (potential + kin params data, none)

/-- The excited-state branch of `_e_l` (lines 342-373): reshape (line 345),
the pseudopotential spin reshape (line 358) when active, the kinetic
matrices (line 368, itself reshaping both arrays and validating the
method), then the linear solve and its trace. -/
def e_l_excited (C : Collaborators P KeyT AtomsT) (s : ℕ) (laplacian_method : String)
    (effective_charges : List ℚ) (ploc : InputFeatures → ℚ)
    (pnonloc : KeyT → P → FermiNetData AtomsT → InputFeatures → ℚ) (use_pp : Bool) :
    P → KeyT → FermiNetData AtomsT → Except EvalErr (ℚ × Option EMat) :=
  fun params key d => do
    _ ← npReshapeCheck s d.positions
    _ ← if use_pp then npReshapeCheck s d.spins else pure ()
    _ ← excited_kinetic_energy_matrix C s laplacian_method params d
    let M := excitedEnergyMat C s laplacian_method effective_charges ploc pnonloc
      use_pp params key d
    pure (M.trace, some ⟨s, M⟩)

/-- The pseudopotential configuration chosen at construction time by
`local_energy`. -/
structure PPSetup (P KeyT AtomsT : Type) where
  effective_charges : List ℚ
  pp_local : InputFeatures → ℚ
  pp_nonlocal : KeyT → P → FermiNetData AtomsT → InputFeatures → ℚ
  use_pp : Bool

/-- Lines 315-330 of `local_energy`: without symbols the bare charges and
zero potentials are used; with symbols the pseudopotential factory runs,
and its potentials are kept only when the effective charges differ from
the bare charges. -/
def ppSetup (C : Collaborators P KeyT AtomsT) (charges : List ℚ)
    (pp_symbols : List String) (pp_type : String) (complex_output : Bool) :
    PPSetup P KeyT AtomsT :=
  if pp_symbols = [] then
    ⟨charges, fun _ => 0, fun _ _ _ _ => 0, false⟩
  else
    let r := C.makePP charges pp_symbols 4 pp_type complex_output
    if r.effective = charges then
      ⟨r.effective, fun _ => 0, fun _ _ _ _ => 0, false⟩
    else
      ⟨r.effective, r.pp_local, r.pp_nonlocal, true⟩

/-- `local_energy` (lines 267-386): construction-time validation and
dispatch.  Complex output with more than one excited state is rejected,
`nspins` is deleted unused, the kinetic estimator is built (validating the
method at construction only on the ground-state path), the
pseudopotential setup is computed, and the `_e_l` closure is returned. -/
def local_energy (C : Collaborators P KeyT AtomsT) (charges : List ℚ)
    (nspins : List ℕ) (use_scan : Bool) (complex_output : Bool)
    (laplacian_method : String) (states : ℕ) (pp_type : String)
    (pp_symbols : List String) :
    Except ConfigError
      (P → KeyT → FermiNetData AtomsT → Except EvalErr (ℚ × Option EMat)) :=
  if complex_output = true ∧ 1 < states then Except.error ConfigError.complexExcited
  else if states = 0 then
    match local_kinetic_energy C.ground use_scan complex_output laplacian_method with
    | Except.error e => Except.error e
    | Except.ok kin =>
        let pps := ppSetup C charges pp_symbols pp_type complex_output
        Except.ok (e_l_ground C pps.effective_charges pps.pp_local pps.pp_nonlocal kin)
  else
    let pps := ppSetup C charges pp_symbols pp_type complex_output
    Except.ok (e_l_excited C states laplacian_method pps.effective_charges
      pps.pp_local pps.pp_nonlocal pps.use_pp)

/-- A concrete ground-state derivative oracle on trivial parameter and
atom types, used by closed witness statements. -/
def unitOracle : GroundOracle Unit (FermiNetData Unit) where
  nCoords := fun d => d.positions.length
  hdiag_real := fun _ _ _ => 1
  hdiag_complex := fun _ _ _ => 1
  grad_log_sq := fun _ _ => 1
  complex_corr := fun _ _ => 0
  folx_lapl := fun _ _ => 1
  folx_jac_sq := fun _ _ => 1

/-- Concrete one-electron, one-atom features at unit distances. -/
def unitFeatures : InputFeatures where
  ne := 1
  na := 1
  ae := fun _ _ _ => 0
  r_ae := fun _ _ => 1
  r_ee := fun _ _ => 1

/-- A concrete collaborator bundle on trivial parameter, key and atom
types, used by closed witness statements. -/
def unitCollab : Collaborators Unit Unit Unit where
  feats := fun _ _ => unitFeatures
  natoms := fun _ => 1
  r_aa := fun _ _ _ => 1
  sign := fun _ _ _ _ _ _ => 1
  logm := fun _ _ _ _ _ _ => 0
  lapl := fun _ _ _ _ _ _ => 0
  folx_lapl := fun _ _ _ _ _ _ => 0
  ground := unitOracle
  qexp := fun _ => 1
  makePP := fun charges _ _ _ _ => ⟨charges, fun _ => 0, fun _ _ _ _ => 0⟩

/-- A concrete one-coordinate configuration. -/
def unitData : FermiNetData Unit where
  positions := [0]
  spins := [0]
  atoms := ()
  charges := [1]

/-! ## Helper lemmas -/

lemma foldl_add_range (h : ℕ → ℚ) (n : ℕ) :
    (List.range n).foldl (fun val i => val + h i) 0 = ((List.range n).map h).sum := by
  induction n with
  | zero => simp
  | succ k ih =>
      rw [List.range_succ, List.foldl_append, List.map_append, List.sum_append, ih]
      simp

lemma laxScan_diag (h : ℕ → ℚ) (n : ℕ) :
    laxScan (fun i _ => (i + 1, h i)) 0 n = (n, (List.range n).map h) := by
  induction n with
  | zero => rfl
  | succ k ih =>
      unfold laxScan at ih ⊢
      rw [List.range_succ, List.foldl_append, ih]
      simp [List.range_succ]

lemma foriLoop_add (h : ℕ → ℚ) (n : ℕ) :
    foriLoop 0 n (fun i val => val + h i) 0 = ((List.range n).map h).sum := by
  unfold foriLoop
  rw [Nat.sub_zero, ← List.range_eq_range']
  exact foldl_add_range h n

lemma mul_npSolve {n : ℕ} (A B : Matrix (Fin n) (Fin n) ℚ) (hA : A.det ≠ 0) :
    A * npSolve A B = B := by
  unfold npSolve
  rw [Matrix.mul_smul, ← Matrix.mul_assoc, Matrix.mul_adjugate, Matrix.smul_mul, one_mul,
    smul_smul, inv_mul_cancel₀ hA, one_smul]

lemma npSolve_eq_of_mul_eq {n : ℕ} (A B X : Matrix (Fin n) (Fin n) ℚ) (hA : A.det ≠ 0)
    (h : A * X = B) : npSolve A B = X := by
  rw [← h]
  unfold npSolve
  rw [← Matrix.mul_assoc, Matrix.adjugate_mul, Matrix.smul_mul, one_mul, smul_smul,
    inv_mul_cancel₀ hA, one_smul]

/-! ## Claim theorems -/

/-- C4: for every wavefunction oracle, parameters and configuration, the
default-method ground-state kinetic energy with `use_scan = true` (scan
accumulation of the Hessian diagonal) equals the one with
`use_scan = false` (explicit `fori_loop`). -/
theorem c4_use_scan_equivalent {P D : Type} (o : GroundOracle P D) (complex_output : Bool)
    (params : P) (data : D) :
    (local_kinetic_energy o true complex_output "default").map (fun k => k params data)
      = (local_kinetic_energy o false complex_output "default").map (fun k => k params data) := by
  have key : ∀ (hd : ℕ → ℚ) (n : ℕ),
      ((laxScan (fun i _ => (i + 1, hd i)) 0 n).2).sum
        = foriLoop 0 n (fun i val => val + hd i) 0 := by
    intro hd n
    rw [laxScan_diag, foriLoop_add]
  have main : lapl_over_f_default o true complex_output params data
      = lapl_over_f_default o false complex_output params data := by
    unfold lapl_over_f_default
    simp only [reduceIte]
    rw [key]
    simp
  simp only [local_kinetic_energy, reduceIte, Except.map, main]

/-- C10: the `nspins` argument of `local_energy` is deleted unused; the
returned local-energy function is the same for any two values of it. -/
theorem c10_nspins_no_effect (C : Collaborators P KeyT AtomsT) (charges : List ℚ)
    (ns1 ns2 : List ℕ) (use_scan complex_output : Bool) (laplacian_method : String)
    (states : ℕ) (pp_type : String) (pp_symbols : List String) :
    local_energy C charges ns1 use_scan complex_output laplacian_method states pp_type pp_symbols
      = local_energy C charges ns2 use_scan complex_output laplacian_method states pp_type
          pp_symbols := rfl

/-- C3: scaling both `psi_mat` and `kpsi_mat` by the common positive
factor `exp(-max_log)` of the overflow guard leaves the excited-state
energy matrix `solve(psi_mat, kpsi_mat + psi_mat * pot_column)` and its
trace unchanged, for every non-singular `psi_mat` and every value of the
shift. -/
theorem c3_shift_cancels {s : ℕ} (c : ℚ) (psi kpsi : Matrix (Fin s) (Fin s) ℚ)
    (pot : Fin s → ℚ) (hc : 0 < c) (hdet : psi.det ≠ 0) :
    npSolve (c • psi) ((c • kpsi) + Matrix.of fun j i => (c • psi) j i * pot j)
        = npSolve psi (kpsi + Matrix.of fun j i => psi j i * pot j)
      ∧ (npSolve (c • psi) ((c • kpsi) + Matrix.of fun j i => (c • psi) j i * pot j)).trace
        = (npSolve psi (kpsi + Matrix.of fun j i => psi j i * pot j)).trace := by
  have hc0 : c ≠ 0 := ne_of_gt hc
  have hB : ((c • kpsi) + Matrix.of fun j i => (c • psi) j i * pot j)
      = c • (kpsi + Matrix.of fun j i => psi j i * pot j) := by
    ext j i
    simp only [Matrix.add_apply, Matrix.smul_apply, Matrix.of_apply, smul_eq_mul]
    ring
  have hdet2 : (c • psi).det ≠ 0 := by
    rw [Matrix.det_smul]
    exact mul_ne_zero (pow_ne_zero _ hc0) hdet
  have hmain : npSolve (c • psi) (c • (kpsi + Matrix.of fun j i => psi j i * pot j))
      = npSolve psi (kpsi + Matrix.of fun j i => psi j i * pot j) := by
    apply npSolve_eq_of_mul_eq _ _ _ hdet2
    rw [Matrix.smul_mul, mul_npSolve _ _ hdet]
  exact ⟨by rw [hB, hmain], by rw [hB, hmain]⟩

/-- C2: on an excited-state call that succeeds, the returned matrix is
square of side `states`, the scalar is its trace, and (for non-singular
`psi_mat`) it satisfies `psi_mat * energy_mat = hpsi_mat` with
`hpsi_mat = kpsi_mat + psi_mat * pot_column`. -/
theorem c2_excited_energy_matrix (C : Collaborators P KeyT AtomsT) (charges : List ℚ)
    (nspins : List ℕ) (use_scan complex_output : Bool) (laplacian_method : String)
    (states : ℕ) (pp_type : String) (pp_symbols : List String)
    (params : P) (key : KeyT) (d : FermiNetData AtomsT)
    (hs : states ≠ 0)
    (hcfg : ¬(complex_output = true ∧ 1 < states))
    (hm : laplacian_method = "default" ∨ laplacian_method = "folx")
    (hdp : states ∣ d.positions.length)
    (hds : states ∣ d.spins.length)
    (hdet : (excitedPsi C states laplacian_method params d).det ≠ 0) :
    (local_energy C charges nspins use_scan complex_output laplacian_method states pp_type
          pp_symbols).map (fun el => el params key d)
      = Except.ok (Except.ok
          ((excitedEnergyMat C states laplacian_method
              (ppSetup C charges pp_symbols pp_type complex_output).effective_charges
              (ppSetup C charges pp_symbols pp_type complex_output).pp_local
              (ppSetup C charges pp_symbols pp_type complex_output).pp_nonlocal
              (ppSetup C charges pp_symbols pp_type complex_output).use_pp
              params key d).trace,
            some ⟨states, excitedEnergyMat C states laplacian_method
              (ppSetup C charges pp_symbols pp_type complex_output).effective_charges
              (ppSetup C charges pp_symbols pp_type complex_output).pp_local
              (ppSetup C charges pp_symbols pp_type complex_output).pp_nonlocal
              (ppSetup C charges pp_symbols pp_type complex_output).use_pp
              params key d⟩))
    ∧ excitedPsi C states laplacian_method params d
        * excitedEnergyMat C states laplacian_method
            (ppSetup C charges pp_symbols pp_type complex_output).effective_charges
            (ppSetup C charges pp_symbols pp_type complex_output).pp_local
            (ppSetup C charges pp_symbols pp_type complex_output).pp_nonlocal
            (ppSetup C charges pp_symbols pp_type complex_output).use_pp
            params key d
      = excitedHpsiMat C states laplacian_method
          (ppSetup C charges pp_symbols pp_type complex_output).effective_charges
          (ppSetup C charges pp_symbols pp_type complex_output).pp_local
          (ppSetup C charges pp_symbols pp_type complex_output).pp_nonlocal
          (ppSetup C charges pp_symbols pp_type complex_output).use_pp
          params key d := by
  have h1 : npReshapeCheck states d.positions = Except.ok () := by
    unfold npReshapeCheck
    rw [if_pos ⟨hs, hdp⟩]
  have h2 : npReshapeCheck states d.spins = Except.ok () := by
    unfold npReshapeCheck
    rw [if_pos ⟨hs, hds⟩]
  have h3 : excited_kinetic_energy_matrix C states laplacian_method params d
      = Except.ok (excitedMats C states laplacian_method params d) := by
    unfold excited_kinetic_energy_matrix
    rw [h1, h2]
    simp [hm, Bind.bind, Except.bind, Pure.pure, Except.pure]
  constructor
  · simp only [local_energy, if_neg hcfg, if_neg hs, Except.map]
    unfold e_l_excited
    rw [h1, h3]
    cases hpp : (ppSetup C charges pp_symbols pp_type complex_output).use_pp <;>
      simp [hpp, h2, Bind.bind, Except.bind, Pure.pure, Except.pure]
  · unfold excitedEnergyMat
    exact mul_npSolve _ _ hdet

/-- C1: every ground-state call (`states = 0`) returns the sum of the
potential energy (electron-electron, electron-nuclear with the effective
charges, nuclear-nuclear, pseudopotential local and non-local terms) and
the kinetic energy of the kinetic estimator on the same configuration,
and no excited-state matrix. -/
theorem c1_ground_total_energy (C : Collaborators P KeyT AtomsT) (charges : List ℚ)
    (nspins : List ℕ) (use_scan complex_output : Bool) (laplacian_method : String)
    (pp_type : String) (pp_symbols : List String)
    (params : P) (key : KeyT) (d : FermiNetData AtomsT)
    (kin : P → FermiNetData AtomsT → ℚ)
    (hk : local_kinetic_energy C.ground use_scan complex_output laplacian_method
      = Except.ok kin) :
    (local_energy C charges nspins use_scan complex_output laplacian_method 0 pp_type
          pp_symbols).map (fun el => el params key d)
      = Except.ok (Except.ok
          (potential_electron_electron (C.feats d.positions d.atoms).ne
              (C.feats d.positions d.atoms).r_ee
            + potential_electron_nuclear (C.feats d.positions d.atoms)
                (ppSetup C charges pp_symbols pp_type complex_output).effective_charges
            + potential_nuclear_nuclear C.natoms C.r_aa
                (ppSetup C charges pp_symbols pp_type complex_output).effective_charges
                d.atoms
            + (ppSetup C charges pp_symbols pp_type complex_output).pp_local
                (C.feats d.positions d.atoms)
            + (ppSetup C charges pp_symbols pp_type complex_output).pp_nonlocal
                key params d (C.feats d.positions d.atoms)
            + kin params d,
            none)) := by
  simp [local_energy, hk, e_l_ground, potential_energy, Except.map]

/-- C7: an excited-state evaluation whose position-coordinate count is not
divisible by the state count fails with the reshape error instead of
producing a result. -/
theorem c7_indivisible_reshape_fails (C : Collaborators P KeyT AtomsT) (charges : List ℚ)
    (nspins : List ℕ) (use_scan complex_output : Bool) (laplacian_method : String)
    (states : ℕ) (pp_type : String) (pp_symbols : List String)
    (params : P) (key : KeyT) (d : FermiNetData AtomsT)
    (hs : 1 ≤ states)
    (hcfg : ¬(complex_output = true ∧ 1 < states))
    (hdp : ¬ states ∣ d.positions.length) :
    (local_energy C charges nspins use_scan complex_output laplacian_method states pp_type
          pp_symbols).map (fun el => el params key d)
      = Except.ok (Except.error EvalErr.reshapeError) := by
  have hs0 : states ≠ 0 := by omega
  have h1 : npReshapeCheck states d.positions = Except.error EvalErr.reshapeError := by
    unfold npReshapeCheck
    rw [if_neg]
    rintro ⟨-, hdvd⟩
    exact hdp hdvd
  simp only [local_energy, if_neg hcfg, if_neg hs0, Except.map]
  unfold e_l_excited
  rw [h1]
  rfl

/-- C9: with no pseudopotential symbols the construction keeps the bare
charges and the zero local and non-local potentials; and the
pseudopotential machinery is active exactly when symbols were supplied
and the computed effective charges differ from the bare charges. -/
theorem c9_pp_disabled_means_bare (C : Collaborators P KeyT AtomsT) (charges : List ℚ)
    (pp_symbols : List String) (pp_type : String) (complex_output : Bool) :
    ppSetup C charges [] pp_type complex_output
        = ⟨charges, fun _ => 0, fun _ _ _ _ => 0, false⟩
      ∧ ((ppSetup C charges pp_symbols pp_type complex_output).use_pp = true
          ↔ pp_symbols ≠ []
            ∧ (C.makePP charges pp_symbols 4 pp_type complex_output).effective ≠ charges) := by
  constructor
  · rfl
  · constructor
    · intro h
      by_cases hps : pp_symbols = []
      · rw [ppSetup, if_pos hps] at h
        exact absurd h (by simp)
      · refine ⟨hps, ?_⟩
        intro heff
        rw [ppSetup, if_neg hps] at h
        simp only [heff, if_pos rfl] at h
        exact absurd h (by simp)
    · rintro ⟨hps, heff⟩
      rw [ppSetup, if_neg hps]
      simp only [if_neg heff]

/-- C8: for a symmetric electron-electron distance tensor,
`potential_electron_electron` is invariant under applying any permutation
of the electron indices jointly to both axes, and it is zero for a single
electron. -/
theorem c8_pee_symmetric (n : ℕ) (r : Fin n → Fin n → ℚ) (σ : Equiv.Perm (Fin n))
    (hsym : ∀ i j, r i j = r j i) :
    potential_electron_electron n (fun i j => r (σ i) (σ j))
        = potential_electron_electron n r
      ∧ ∀ r1 : Fin 1 → Fin 1 → ℚ, potential_electron_electron 1 r1 = 0 := by
  constructor
  · unfold potential_electron_electron
    refine Finset.sum_nbij'
      (fun p => if σ p.1 < σ p.2 then (σ p.1, σ p.2) else (σ p.2, σ p.1))
      (fun q => if σ.symm q.1 < σ.symm q.2 then (σ.symm q.1, σ.symm q.2)
        else (σ.symm q.2, σ.symm q.1)) ?_ ?_ ?_ ?_ ?_
    · intro p hp
      rw [Finset.mem_filter] at hp ⊢
      dsimp only
      refine ⟨Finset.mem_univ _, ?_⟩
      by_cases h : σ p.1 < σ p.2
      · rw [if_pos h]
        exact h
      · rw [if_neg h]
        exact lt_of_le_of_ne (not_lt.mp h) (σ.injective.ne (ne_of_lt hp.2)).symm
    · intro q hq
      rw [Finset.mem_filter] at hq ⊢
      dsimp only
      refine ⟨Finset.mem_univ _, ?_⟩
      by_cases h : σ.symm q.1 < σ.symm q.2
      · rw [if_pos h]
        exact h
      · rw [if_neg h]
        exact lt_of_le_of_ne (not_lt.mp h) (σ.symm.injective.ne (ne_of_lt hq.2)).symm
    · intro p hp
      rw [Finset.mem_filter] at hp
      dsimp only
      by_cases h : σ p.1 < σ p.2
      · rw [if_pos h]
        simp [hp.2]
      · rw [if_neg h]
        have hne : ¬ σ.symm (σ p.2) < σ.symm (σ p.1) := by
          simp only [Equiv.symm_apply_apply]
          exact asymm hp.2
        rw [if_neg hne]
        simp
    · intro q hq
      rw [Finset.mem_filter] at hq
      dsimp only
      by_cases h : σ.symm q.1 < σ.symm q.2
      · rw [if_pos h]
        simp [hq.2]
      · rw [if_neg h]
        have hne : ¬ σ (σ.symm q.2) < σ (σ.symm q.1) := by
          simp only [Equiv.apply_symm_apply]
          exact asymm hq.2
        rw [if_neg hne]
        simp
    · intro p hp
      dsimp only
      by_cases h : σ p.1 < σ p.2
      · rw [if_pos h]
      · rw [if_neg h]
        rw [hsym (σ p.1) (σ p.2)]
  · intro r1
    unfold potential_electron_electron
    have hempty : Finset.filter (fun p : Fin 1 × Fin 1 => p.1 < p.2) Finset.univ
        = (∅ : Finset (Fin 1 × Fin 1)) := by decide
    rw [hempty, Finset.sum_empty]

/-- C5 (amended): the complex-with-multiple-states, ground-state
forward-mode-with-complex and ground-state unknown-method errors are
raised at construction; the unknown excited-state laplacian-method error
is instead deferred: construction succeeds and the error is raised at the
first evaluation of the returned function. -/
theorem c5_amended_construction_errors (C : Collaborators P KeyT AtomsT) (charges : List ℚ)
    (nspins : List ℕ) (use_scan complex_output : Bool) (m : String) (states : ℕ)
    (pp_type : String) (pp_symbols : List String)
    (hm1 : m ≠ "default") (hm2 : m ≠ "folx") :
    (complex_output = true ∧ 1 < states →
        local_energy C charges nspins use_scan complex_output m states pp_type pp_symbols
          = Except.error ConfigError.complexExcited)
    ∧ (local_energy C charges nspins use_scan true "folx" 0 pp_type pp_symbols
        = Except.error ConfigError.folxComplex)
    ∧ (states = 0 →
        local_energy C charges nspins use_scan complex_output m states pp_type pp_symbols
          = Except.error (ConfigError.unknownMethod m))
    ∧ (1 ≤ states → ¬(complex_output = true ∧ 1 < states) →
        (local_energy C charges nspins use_scan complex_output m states pp_type
            pp_symbols).isOk = true
        ∧ ∀ (params : P) (key : KeyT) (d : FermiNetData AtomsT),
            states ∣ d.positions.length → states ∣ d.spins.length →
            (local_energy C charges nspins use_scan complex_output m states pp_type
                pp_symbols).map (fun el => el params key d)
              = Except.ok (Except.error (EvalErr.unknownExcitedMethod m))) := by
  have hm : ¬(m = "default" ∨ m = "folx") := by
    rintro (h | h)
    · exact hm1 h
    · exact hm2 h
  refine ⟨?_, ?_, ?_, ?_⟩
  · intro h
    unfold local_energy
    rw [if_pos h]
  · simp [local_energy, local_kinetic_energy]
  · intro h
    subst h
    simp [local_energy, local_kinetic_energy, hm1, hm2]
  · intro h1 h2
    have hs0 : states ≠ 0 := by omega
    constructor
    · simp only [local_energy, if_neg h2, if_neg hs0]
      rfl
    · intro params key d hdp hds
      have hr1 : npReshapeCheck states d.positions = Except.ok () := by
        unfold npReshapeCheck
        rw [if_pos ⟨hs0, hdp⟩]
      have hr2 : npReshapeCheck states d.spins = Except.ok () := by
        unfold npReshapeCheck
        rw [if_pos ⟨hs0, hds⟩]
      have hke : excited_kinetic_energy_matrix C states m params d
          = Except.error (EvalErr.unknownExcitedMethod m) := by
        unfold excited_kinetic_energy_matrix
        rw [hr1, hr2]
        simp [hm, Bind.bind, Except.bind]
      simp only [local_energy, if_neg h2, if_neg hs0, Except.map]
      unfold e_l_excited
      rw [hr1]
      cases hpp : (ppSetup C charges pp_symbols pp_type complex_output).use_pp <;>
        simp [hpp, hr2, hke, Bind.bind, Except.bind, Pure.pure, Except.pure]

/-- C5 counterexample: with one excited state and the unknown laplacian
method "bogus", construction succeeds and the error appears only when the
returned function is evaluated — refuting "never deferred to the first
evaluation". -/
theorem c5_counterexample :
    (local_energy unitCollab [1] [] false false "bogus" 1 "ccecp" []).isOk = true
    ∧ (local_energy unitCollab [1] [] false false "bogus" 1 "ccecp" []).map
        (fun el => el () () unitData)
      = Except.ok (Except.error (EvalErr.unknownExcitedMethod "bogus")) := by
  exact ⟨rfl, rfl⟩

/-- C6 (amended): forward-mode laplacian with complex output fails at
construction for the ground state (not-implemented) and for more than one
state (complex-excited error), but with exactly one excited state the
combination is accepted at construction. -/
theorem c6_amended_folx_complex (C : Collaborators P KeyT AtomsT) (charges : List ℚ)
    (nspins : List ℕ) (use_scan : Bool) (pp_type : String) (pp_symbols : List String) :
    (local_energy C charges nspins use_scan true "folx" 0 pp_type pp_symbols
        = Except.error ConfigError.folxComplex)
    ∧ (∀ states : ℕ, 1 < states →
        local_energy C charges nspins use_scan true "folx" states pp_type pp_symbols
          = Except.error ConfigError.complexExcited)
    ∧ (local_energy C charges nspins use_scan true "folx" 1 pp_type pp_symbols).isOk
        = true := by
  refine ⟨?_, ?_, ?_⟩
  · simp [local_energy, local_kinetic_energy]
  · intro s hs
    unfold local_energy
    rw [if_pos ⟨rfl, hs⟩]
  · rfl

/-- C6 counterexample: folx with complex output and exactly one excited
state is accepted at construction — refuting "fails for any number of
states". -/
theorem c6_counterexample :
    (local_energy unitCollab [1] [] false true "folx" 1 "ccecp" []).isOk = true := rfl

/-- Witness for C1 at a concrete input. -/
theorem c1_witness :
    (local_kinetic_energy unitCollab.ground false false "default"
        = Except.ok (lapl_over_f_default unitCollab.ground false false))
    ∧ (local_energy unitCollab [1] [] false false "default" 0 "ccecp" []).map
        (fun el => el () () unitData)
      = Except.ok (Except.ok
          (potential_electron_electron (unitCollab.feats unitData.positions unitData.atoms).ne
              (unitCollab.feats unitData.positions unitData.atoms).r_ee
            + potential_electron_nuclear (unitCollab.feats unitData.positions unitData.atoms)
                (ppSetup unitCollab [1] [] "ccecp" false).effective_charges
            + potential_nuclear_nuclear unitCollab.natoms unitCollab.r_aa
                (ppSetup unitCollab [1] [] "ccecp" false).effective_charges unitData.atoms
            + (ppSetup unitCollab [1] [] "ccecp" false).pp_local
                (unitCollab.feats unitData.positions unitData.atoms)
            + (ppSetup unitCollab [1] [] "ccecp" false).pp_nonlocal
                () () unitData (unitCollab.feats unitData.positions unitData.atoms)
            + lapl_over_f_default unitCollab.ground false false () unitData,
            none)) := by
  have hk : local_kinetic_energy unitCollab.ground false false "default"
      = Except.ok (lapl_over_f_default unitCollab.ground false false) := rfl
  exact ⟨hk, c1_ground_total_energy unitCollab [1] [] false false "default" "ccecp" []
    () () unitData (lapl_over_f_default unitCollab.ground false false) hk⟩

/-- Witness for C2 at a concrete input. -/
theorem c2_witness :
    ((excitedPsi unitCollab 1 "default" () unitData).det ≠ 0)
    ∧ excitedPsi unitCollab 1 "default" () unitData
        * excitedEnergyMat unitCollab 1 "default"
            (ppSetup unitCollab [1] [] "ccecp" false).effective_charges
            (ppSetup unitCollab [1] [] "ccecp" false).pp_local
            (ppSetup unitCollab [1] [] "ccecp" false).pp_nonlocal
            (ppSetup unitCollab [1] [] "ccecp" false).use_pp () () unitData
      = excitedHpsiMat unitCollab 1 "default"
          (ppSetup unitCollab [1] [] "ccecp" false).effective_charges
          (ppSetup unitCollab [1] [] "ccecp" false).pp_local
          (ppSetup unitCollab [1] [] "ccecp" false).pp_nonlocal
          (ppSetup unitCollab [1] [] "ccecp" false).use_pp () () unitData := by
  have hdet : (excitedPsi unitCollab 1 "default" () unitData).det ≠ 0 := by
    rw [Matrix.det_fin_one]
    have h : excitedPsi unitCollab 1 "default" () unitData 0 0 = 1 := by
      simp [excitedPsi, excitedMats, unitCollab, unitData, matMax, matEntries, npRows,
        List.finRange]
    rw [h]
    norm_num
  exact ⟨hdet, (c2_excited_energy_matrix unitCollab [1] [] false false "default" 1 "ccecp" []
    () () unitData (by decide) (by decide) (Or.inl rfl) (by decide) (by decide) hdet).2⟩

/-- Witness for C3 at a concrete input. -/
theorem c3_witness :
    ((0:ℚ) < 2) ∧ ((!![(1:ℚ)] : Matrix (Fin 1) (Fin 1) ℚ).det ≠ 0)
    ∧ npSolve ((2:ℚ) • (!![(1:ℚ)] : Matrix (Fin 1) (Fin 1) ℚ))
        (((2:ℚ) • (!![(3:ℚ)] : Matrix (Fin 1) (Fin 1) ℚ))
          + Matrix.of fun j i =>
              ((2:ℚ) • (!![(1:ℚ)] : Matrix (Fin 1) (Fin 1) ℚ)) j i
                * (fun _ : Fin 1 => (5:ℚ)) j)
      = npSolve (!![(1:ℚ)] : Matrix (Fin 1) (Fin 1) ℚ)
          ((!![(3:ℚ)] : Matrix (Fin 1) (Fin 1) ℚ)
            + Matrix.of fun j i =>
                (!![(1:ℚ)] : Matrix (Fin 1) (Fin 1) ℚ) j i
                  * (fun _ : Fin 1 => (5:ℚ)) j) := by
  have hdet : (!![(1:ℚ)] : Matrix (Fin 1) (Fin 1) ℚ).det ≠ 0 := by
    rw [Matrix.det_fin_one]
    decide
  exact ⟨by norm_num, hdet,
    (c3_shift_cancels 2 !![(1:ℚ)] !![(3:ℚ)] (fun _ => 5) (by norm_num) hdet).1⟩

/-- Witness for C5 at concrete inputs: the construction-time errors fire
there, and the unknown excited-method error is deferred to evaluation. -/
theorem c5_witness :
    (local_energy unitCollab [1] [] false false "bogus" 0 "ccecp" []
        = Except.error (ConfigError.unknownMethod "bogus"))
    ∧ (local_energy unitCollab [1] [] false true "folx" 0 "ccecp" []
        = Except.error ConfigError.folxComplex)
    ∧ (local_energy unitCollab [1] [] false true "bogus" 2 "ccecp" []
        = Except.error ConfigError.complexExcited)
    ∧ (local_energy unitCollab [1] [] false false "bogus" 1 "ccecp" []).isOk = true
    ∧ (local_energy unitCollab [1] [] false false "bogus" 1 "ccecp" []).map
        (fun el => el () () unitData)
      = Except.ok (Except.error (EvalErr.unknownExcitedMethod "bogus")) := by
  refine ⟨?_, ?_, ?_, ?_, ?_⟩
  · exact (c5_amended_construction_errors unitCollab [1] [] false false "bogus" 0 "ccecp" []
      (by decide) (by decide)).2.2.1 rfl
  · exact (c5_amended_construction_errors unitCollab [1] [] false true "bogus" 0 "ccecp" []
      (by decide) (by decide)).2.1
  · exact (c5_amended_construction_errors unitCollab [1] [] false true "bogus" 2 "ccecp" []
      (by decide) (by decide)).1 (by decide)
  · exact ((c5_amended_construction_errors unitCollab [1] [] false false "bogus" 1 "ccecp" []
      (by decide) (by decide)).2.2.2 (by decide) (by decide)).1
  · exact ((c5_amended_construction_errors unitCollab [1] [] false false "bogus" 1 "ccecp" []
      (by decide) (by decide)).2.2.2 (by decide) (by decide)).2 () () unitData
      (by decide) (by decide)

/-- Witness for C7 at a concrete input. -/
theorem c7_witness :
    ¬((2:ℕ) ∣ ([0, 0, 0] : List ℚ).length)
    ∧ (local_energy unitCollab [1] [] false false "default" 2 "ccecp" []).map
        (fun el => el () () ⟨[0, 0, 0], [0], (), [1]⟩)
      = Except.ok (Except.error EvalErr.reshapeError) := by
  exact ⟨by decide, c7_indivisible_reshape_fails unitCollab [1] [] false false "default" 2
    "ccecp" [] () () ⟨[0, 0, 0], [0], (), [1]⟩ (by decide) (by decide) (by decide)⟩

/-- Witness for C8 at a concrete input. -/
theorem c8_witness :
    (∀ i j : Fin 2, (!![(0:ℚ), 5; 5, 0]) i j = (!![(0:ℚ), 5; 5, 0]) j i)
    ∧ potential_electron_electron 2
        (fun i j => (!![(0:ℚ), 5; 5, 0]) ((Equiv.swap 0 1) i) ((Equiv.swap 0 1) j))
      = potential_electron_electron 2 !![(0:ℚ), 5; 5, 0] := by
  exact ⟨by decide, (c8_pee_symmetric 2 !![(0:ℚ), 5; 5, 0] (Equiv.swap 0 1) (by decide)).1⟩

end Exponet
